import Mathlib

/-!
Verification development for the `twentyonelang` execution core
(`src/env_types.py`, `src/runners.py`).

The Python code is shallowly embedded: every function is translated to a
total, executable Lean definition.  Python exceptions are modelled with
`Except PyError`; Python `None` is the value `TypedValue.pyNone`; Python
lists are `List`; Python dicts keyed by strings are association lists whose
lookup mirrors dict lookup.  Character-level behaviour (`str.strip`,
`str.isdigit`, `float(...)`, `int(..., 16)`) is modelled on the ASCII
fragment, which covers every token the claims mention.
-/

/-- The Python exception classes that the embedded code can raise. -/
inductive PyError where
  | keyError
  | nameError
  | valueError
  | typeError
  | indexError
deriving DecidableEq, Repr

/-- Characters removed by Python `str.strip()` (ASCII whitespace). -/
def isPySpace (c : Char) : Bool :=
  c = ' ' || c = '\t' || c = '\n' || c = '\r' || c.toNat = 11 || c.toNat = 12

/-- Python `str.strip()` on a character list. -/
def pyStrip (cs : List Char) : List Char :=
  ((cs.dropWhile isPySpace).reverse.dropWhile isPySpace).reverse

def isAsciiDigit (c : Char) : Bool := '0' ≤ c && c ≤ '9'

def isHexDigitChar (c : Char) : Bool :=
  isAsciiDigit c || ('a' ≤ c && c ≤ 'f') || ('A' ≤ c && c ≤ 'F')

def hexVal (c : Char) : Nat :=
  if isAsciiDigit c then c.toNat - 48
  else if 'a' ≤ c && c ≤ 'f' then c.toNat - 87
  else c.toNat - 55

/-- Decimal value of a digit string (most significant digit first). -/
def natOfDigits (ds : List Char) : Nat :=
  ds.foldl (fun a c => a * 10 + (c.toNat - 48)) 0

/-- Hexadecimal value of a digit string (most significant digit first). -/
def natOfHexDigits (ds : List Char) : Nat :=
  ds.foldl (fun a c => a * 16 + hexVal c) 0

/-- Continuation of a digit run in CPython numeric literals: further digits,
with single underscores allowed between digits.  Returns the digits read and
the unconsumed rest. -/
def runDigits (isD : Char → Bool) : List Char → List Char × List Char
  | [] => ([], [])
  | ['_'] => ([], ['_'])
  | '_' :: d :: cs =>
    if isD d then
      let (ds, r) := runDigits isD cs
      (d :: ds, r)
    else ([], '_' :: d :: cs)
  | c :: cs =>
    if isD c then
      let (ds, r) := runDigits isD cs
      (c :: ds, r)
    else ([], c :: cs)

/-- A CPython `digitpart`: a digit followed by digits with optional single
underscores between them.  Fails when the input does not start with a digit. -/
def parseDigits (isD : Char → Bool) : List Char → Option (List Char × List Char)
  | c :: cs =>
    if isD c then
      some (let (ds, r) := runDigits isD cs; (c :: ds, r))
    else Option.none
  | [] => Option.none

/-- Optional sign; returns `true` for a consumed minus sign. -/
def parseSignOpt : List Char → Bool × List Char
  | '-' :: cs => (true, cs)
  | '+' :: cs => (false, cs)
  | cs => (false, cs)

/-- The result of a successful Python `float(...)` call.  A finite value is
kept exactly as the fraction `num / den` read off the literal (not reduced
to lowest terms); the claims only involve values that are exactly
representable, so no IEEE rounding is modelled. -/
inductive PyFloat where
  | finite (num : Int) (den : Nat)
  | inf (neg : Bool)
  | nan
deriving DecidableEq, Repr

/-- The rational value represented by a finite `PyFloat`. -/
def PyFloat.toRat : PyFloat → Option ℚ
  | .finite num den => some ((num : ℚ) / (den : ℚ))
  | _ => Option.none

def toLowerCh (c : Char) : Char :=
  if 'A' ≤ c && c ≤ 'Z' then Char.ofNat (c.toNat + 32) else c

/-- Unsigned part of the CPython `float(str)` grammar:
`digitpart [. [digitpart]] | . digitpart`, then an optional exponent
`(e|E) [sign] digitpart`; the whole input must be consumed.  The value is
returned as an exact fraction `num / den`. -/
def parseUFloat (cs : List Char) : Option (Nat × Nat) :=
  let (ip, r1) :=
    match parseDigits isAsciiDigit cs with
    | some (ds, r) => (ds, r)
    | Option.none => ([], cs)
  let (fp, r2) :=
    match r1 with
    | '.' :: r =>
      (match parseDigits isAsciiDigit r with
       | some (ds, r') => (ds, r')
       | Option.none => ([], r))
    | _ => ([], r1)
  if ip.isEmpty && fp.isEmpty then Option.none
  else
    let num := natOfDigits (ip ++ fp)
    let den := 10 ^ fp.length
    match r2 with
    | [] => some (num, den)
    | e :: r =>
      if e = 'e' || e = 'E' then
        let (es, r') := parseSignOpt r
        match parseDigits isAsciiDigit r' with
        | some (eds, []) =>
          let ex := natOfDigits eds
          some (if es then (num, den * 10 ^ ex) else (num * 10 ^ ex, den))
        | _ => Option.none
      else Option.none

/-- Python `float(s)` for a string argument: `some` on success, `none` when
Python would raise `ValueError`.  Accepts surrounding whitespace, an optional
sign, `inf`/`infinity`/`nan` case-insensitively, and decimal literals. -/
def pyFloatParse (s : String) : Option PyFloat :=
  let cs := pyStrip s.data
  let (neg, cs) := parseSignOpt cs
  let low := cs.map toLowerCh
  if low = ['i', 'n', 'f'] || low = ['i', 'n', 'f', 'i', 'n', 'i', 't', 'y'] then
    some (PyFloat.inf neg)
  else if low = ['n', 'a', 'n'] then some PyFloat.nan
  else
    match parseUFloat cs with
    | some (num, den) =>
      some (PyFloat.finite (if neg then -(num : Int) else (num : Int)) den)
    | Option.none => Option.none

/-- Python `int(s, 16)` for a string argument: `some` on success, `none` when
Python would raise `ValueError`.  Accepts surrounding whitespace, an optional
sign, an optional `0x`/`0X` prefix (optionally followed by one underscore),
and hex digits with single underscores between them. -/
def pyIntBase16 (s : String) : Option Int :=
  let cs := pyStrip s.data
  let (neg, cs) := parseSignOpt cs
  let cs :=
    match cs with
    | '0' :: x :: rest =>
      if x = 'x' || x = 'X' then
        match rest with
        | '_' :: r => r
        | r => r
      else '0' :: x :: rest
    | cs => cs
  match parseDigits isHexDigitChar cs with
  | some (ds, []) =>
    some (if neg then -(natOfHexDigits ds : Int) else (natOfHexDigits ds : Int))
  | _ => Option.none

/-- Python `s.isdigit()` restricted to the ASCII fragment: nonempty and all
characters are decimal digits. -/
def pyIsDigit (s : String) : Bool :=
  !s.data.isEmpty && s.data.all isAsciiDigit

/-- Lowercase hex digit for a value below 16, as produced by Python `hex`. -/
def hexDigitChar (n : Nat) : Char :=
  if n < 10 then Char.ofNat (48 + n) else Char.ofNat (87 + n)

/-- Fuel-driven accumulation of the hex digits of `n` (fuel `≥ n` suffices). -/
def natHexAux : Nat → Nat → List Char → List Char
  | 0, _, acc => acc
  | f + 1, n, acc =>
    if n = 0 then acc else natHexAux f (n / 16) (hexDigitChar (n % 16) :: acc)

/-- The hex digits of `n`, most significant first, as printed by Python `hex`. -/
def natHexDigits (n : Nat) : List Char :=
  if n = 0 then ['0'] else natHexAux n n []

/-- Python `hex(i)`: `0x`-prefixed lowercase hex, with a leading minus sign
for negative arguments. -/
def hexPy (i : Int) : String :=
  if i < 0 then String.mk ('-' :: '0' :: 'x' :: natHexDigits (-i).toNat)
  else String.mk ('0' :: 'x' :: natHexDigits i.toNat)

/-- Python slicing `s[2:]`. -/
def strSlice2 (s : String) : String := String.mk (s.data.drop 2)

/-- Python list subscript `l[i]` with negative-index wrapping: `some` is the
element, `none` means `IndexError`. -/
def pyGet {α : Type} (l : List α) (i : Int) : Option α :=
  if 0 ≤ i then l.get? i.toNat
  else if 0 ≤ i + l.length then l.get? (i + l.length).toNat else Option.none

/-- Python list subscript assignment `l[i] = a`: `some` is the updated list,
`none` means `IndexError`. -/
def pySet {α : Type} (l : List α) (i : Int) (a : α) : Option (List α) :=
  if 0 ≤ i then
    if i.toNat < l.length then some (l.set i.toNat a) else Option.none
  else if 0 ≤ i + l.length then some (l.set (i + l.length).toNat a) else Option.none

/-- The values the interpreter manipulates (`env_types.py` plus the plain
Python values that `BaseRunner.to_type` can produce): Python `None`, `str`,
`int`, `float`, JSON `list`/`dict`, `bool`, and the wrapper classes
`HexValue`, `BlockType` and `Variable`. -/
inductive TypedValue where
  | pyNone
  | str (s : String)
  | int (n : Int)
  | float (f : PyFloat)
  | bool (b : Bool)
  | list (xs : List TypedValue)
  | dict (xs : List (String × TypedValue))
  | hexValue (n : Int)
  | block (s : String)
  | var (s : String)

/-- `BlockType.converted` (env_types.py lines 135-143): the stored value with
the first and last characters removed. -/
def blockConverted (s : String) : String :=
  String.mk ((s.data.drop 1).dropLast)

/-- `HexValue.as_hex` (env_types.py lines 157-159): `hex(value)`. -/
def hexValueAsHex (n : Int) : String := hexPy n

def lbrace : Char := Char.ofNat 123
def rbrace : Char := Char.ofNat 125

def jsonSkipWs (cs : List Char) : List Char :=
  cs.dropWhile (fun c => c = ' ' || c = '\t' || c = '\n' || c = '\r')

def jsonEscape (c : Char) : Option Char :=
  if c = '"' then some '"'
  else if c = '\\' then some '\\'
  else if c = '/' then some '/'
  else if c = 'b' then some (Char.ofNat 8)
  else if c = 'f' then some (Char.ofNat 12)
  else if c = 'n' then some '\n'
  else if c = 'r' then some '\r'
  else if c = 't' then some '\t'
  else Option.none

/-- JSON number: `-? (0 | [1-9][0-9]*) (. [0-9]+)? ((e|E) sign? [0-9]+)?`.
Numbers without fraction and exponent load as Python `int`, others as
`float`, as `json.loads` does. -/
def jsonNumber (cs : List Char) : Option (TypedValue × List Char) :=
  let (neg, cs1) := match cs with | '-' :: r => (true, r) | r => (false, r)
  match cs1 with
  | [] => Option.none
  | c :: r =>
    if ¬ (isAsciiDigit c = true) then Option.none
    else
      let (ids, r1) : List Char × List Char :=
        if c = '0' then ([c], r)
        else (c :: r.takeWhile isAsciiDigit, r.dropWhile isAsciiDigit)
      let fracRes : Option (List Char × List Char) :=
        match r1 with
        | '.' :: r' =>
          let ds := r'.takeWhile isAsciiDigit
          if ds.isEmpty then Option.none else some (ds, r'.dropWhile isAsciiDigit)
        | _ => some ([], r1)
      match fracRes with
      | Option.none => Option.none
      | some (fds, r2) =>
        let expRes : Option (Bool × List Char × List Char) :=
          match r2 with
          | e :: r' =>
            if e = 'e' || e = 'E' then
              let (es, r'') := parseSignOpt r'
              let ds := r''.takeWhile isAsciiDigit
              if ds.isEmpty then Option.none
              else some (es, ds, r''.dropWhile isAsciiDigit)
            else some (false, [], r2)
          | [] => some (false, [], [])
        match expRes with
        | Option.none => Option.none
        | some (es, eds, r3) =>
          if fds.isEmpty && eds.isEmpty then
            some (.int (if neg then -(natOfDigits ids : Int) else (natOfDigits ids : Int)), r3)
          else
            let mnum := natOfDigits (ids ++ fds)
            let mden := 10 ^ fds.length
            let ex := natOfDigits eds
            let (num, den) := if es then (mnum, mden * 10 ^ ex) else (mnum * 10 ^ ex, mden)
            some (.float (PyFloat.finite (if neg then -(num : Int) else (num : Int)) den), r3)

mutual

/-- JSON string body after the opening quote; `acc` holds the characters read
so far, reversed.  `\uXXXX` escapes load as the raw code point (surrogate
pairs are not combined -- a simplification that no claim exercises). -/
def jsonString : Nat → List Char → List Char → Option (List Char × List Char)
  | 0, _, _ => Option.none
  | fuel + 1, acc, cs =>
    match cs with
    | '"' :: r => some (acc.reverse, r)
    | '\\' :: e :: r =>
      if e = 'u' then
        match r with
        | h1 :: h2 :: h3 :: h4 :: r' =>
          if isHexDigitChar h1 && isHexDigitChar h2 && isHexDigitChar h3 && isHexDigitChar h4 then
            jsonString fuel
              (Char.ofNat (((hexVal h1 * 16 + hexVal h2) * 16 + hexVal h3) * 16 + hexVal h4) :: acc) r'
          else Option.none
        | _ => Option.none
      else
        match jsonEscape e with
        | some c => jsonString fuel (c :: acc) r
        | Option.none => Option.none
    | c :: r => jsonString fuel (c :: acc) r
    | [] => Option.none

/-- One JSON value, given at least one character of lookahead. -/
def jsonValue : Nat → List Char → Option (TypedValue × List Char)
  | 0, _ => Option.none
  | fuel + 1, cs =>
    match cs with
    | 'n' :: 'u' :: 'l' :: 'l' :: r => some (.pyNone, r)
    | 't' :: 'r' :: 'u' :: 'e' :: r => some (.bool true, r)
    | 'f' :: 'a' :: 'l' :: 's' :: 'e' :: r => some (.bool false, r)
    | '"' :: r => (jsonString fuel [] r).map fun p => (.str (String.mk p.1), p.2)
    | c :: r =>
      if c = lbrace then jsonObject fuel (jsonSkipWs r)
      else if c = '[' then jsonArray fuel (jsonSkipWs r)
      else jsonNumber (c :: r)
    | [] => Option.none

/-- JSON object after the opening brace and whitespace. -/
def jsonObject : Nat → List Char → Option (TypedValue × List Char)
  | 0, _ => Option.none
  | fuel + 1, cs =>
    if cs.head? = some rbrace then some (.dict [], cs.tail)
    else (jsonMembers fuel cs).map fun p => (.dict p.1, p.2)

/-- Nonempty member list of a JSON object. -/
def jsonMembers : Nat → List Char → Option (List (String × TypedValue) × List Char)
  | 0, _ => Option.none
  | fuel + 1, cs =>
    match cs with
    | '"' :: r =>
      match jsonString fuel [] r with
      | some (key, r1) =>
        match jsonSkipWs r1 with
        | ':' :: r2 =>
          match jsonValue fuel (jsonSkipWs r2) with
          | some (v, r3) =>
            match jsonSkipWs r3 with
            | ',' :: r4 =>
              (jsonMembers fuel (jsonSkipWs r4)).map fun p => ((String.mk key, v) :: p.1, p.2)
            | r4 =>
              if r4.head? = some rbrace then some ([(String.mk key, v)], r4.tail)
              else Option.none
          | Option.none => Option.none
        | _ => Option.none
      | Option.none => Option.none
    | _ => Option.none

/-- JSON array after the opening bracket and whitespace. -/
def jsonArray : Nat → List Char → Option (TypedValue × List Char)
  | 0, _ => Option.none
  | fuel + 1, cs =>
    if cs.head? = some ']' then some (.list [], cs.tail)
    else (jsonElems fuel cs).map fun p => (.list p.1, p.2)

/-- Nonempty element list of a JSON array. -/
def jsonElems : Nat → List Char → Option (List TypedValue × List Char)
  | 0, _ => Option.none
  | fuel + 1, cs =>
    match jsonValue fuel cs with
    | some (v, r) =>
      match jsonSkipWs r with
      | ',' :: r2 => (jsonElems fuel (jsonSkipWs r2)).map fun p => (v :: p.1, p.2)
      | r2 => if r2.head? = some ']' then some ([v], r2.tail) else Option.none
    | Option.none => Option.none

end

/-- Python `json.loads(s)`: a malformed document raises
`json.JSONDecodeError`, a subclass of `ValueError`. -/
def pyJsonLoads (s : String) : Except PyError TypedValue :=
  match jsonValue (s.data.length + 1) (jsonSkipWs s.data) with
  | some (v, rest) => if jsonSkipWs rest = [] then .ok v else .error .valueError
  | Option.none => .error .valueError

/-- `BaseRunner.floating` (runners.py lines 84-100): `float(val)` guarded by
`except TypeError`.  For a string argument `float` raises `ValueError` on
failure, which the `except TypeError` clause does not catch, so the
`return False` branch is unreachable and failure propagates. -/
def floating (s : String) : Except PyError Bool :=
  match pyFloatParse s with
  | some _ => .ok true
  | Option.none => .error .valueError

/-- `BaseRunner.hexable` (runners.py lines 102-117): `int(val, 16)` guarded by
`except TypeError`; as with `floating`, a string failure is a `ValueError`
that propagates. -/
def hexable (s : String) : Except PyError Bool :=
  match pyIntBase16 s with
  | some _ => .ok true
  | Option.none => .error .valueError

/-- Lines 155-158 of `BaseRunner.to_type`: the final parenthesised-block and
variable fallbacks, which cannot raise. -/
def to_type_tail (s : String) : TypedValue :=
  if 2 ≤ s.data.length ∧ s.data.head? = some '(' ∧ s.data.getLast? = some ')' then
    .block s
  else .var s

/-- `BaseRunner.to_type` (runners.py lines 119-158) on a string argument (the
`not isinstance(s, str)` identity branch is outside this domain).  The branch
structure follows the source line by line; note that when `floating` raises
(every string that is neither quoted, all digits, nor a float literal), the
error propagates out of `to_type`. -/
def to_type (s : String) : Except PyError TypedValue :=
  if 2 ≤ s.data.length ∧ s.data.head? = some '"' ∧ s.data.getLast? = some '"' then
    .ok (.str (String.mk ((s.data.drop 1).dropLast)))
  else if pyIsDigit s then
    .ok (.int (natOfDigits s.data))
  else
    match floating s with
    | .error e => .error e
    | .ok true =>
      match pyFloatParse s with
      | some f => .ok (.float f)
      | Option.none => .error .valueError
    | .ok false =>
      if 2 ≤ s.data.length ∧ (s.data.head? = some lbrace ∨ s.data.head? = some '[')
          ∧ (s.data.getLast? = some rbrace ∨ s.data.getLast? = some ']') then
        pyJsonLoads s
      else
        match hexable s with
        | .error e => .error e
        | .ok true =>
          match pyIntBase16 s with
          | some n => .ok (.hexValue n)
          | Option.none => .error .valueError
        | .ok false =>
          if s.data.take 2 = ['0', 'x'] then
            match hexable (String.mk (s.data.drop 2)) with
            | .error e => .error e
            | .ok true =>
              match pyIntBase16 (String.mk (s.data.drop 2)) with
              | some n => .ok (.hexValue n)
              | Option.none => .error .valueError
            | .ok false => .ok (to_type_tail s)
          else .ok (to_type_tail s)

/-- State of the scan in `split_by_not_in_blocks_or_strings`
(runners.py lines 12-16): emitted tokens, current buffer, paren depth
(a Python `int`, so it may go negative), the open quote character if any,
and the escape flag. -/
structure SplitState where
  result : List String
  buf : List Char
  depth : Int
  in_quote : Option Char
  escape : Bool
deriving DecidableEq, Repr

/-- A buffer rendered as a token: `"".join(buf).strip()`. -/
def pyStripS (cs : List Char) : String := String.mk (pyStrip cs)

/-- One iteration of the `for c in text` loop of
`split_by_not_in_blocks_or_strings` (runners.py lines 18-55), in the
source's priority order: escape consumption, backslash, inside-quote
handling, quote opening, parens, separator split. -/
def splitStep (sep : Char) (st : SplitState) (c : Char) : SplitState :=
  if st.escape then { st with buf := st.buf ++ [c], escape := false }
  else if c = '\\' then { st with buf := st.buf ++ [c], escape := true }
  else
    match st.in_quote with
    | some q =>
      { st with buf := st.buf ++ [c],
                in_quote := if c = q then Option.none else some q }
    | Option.none =>
      if c = '\'' ∨ c = '"' then { st with buf := st.buf ++ [c], in_quote := some c }
      else if c = '(' then { st with buf := st.buf ++ [c], depth := st.depth + 1 }
      else if c = ')' then { st with buf := st.buf ++ [c], depth := st.depth - 1 }
      else if c = sep ∧ st.depth = 0 then
        { st with result := st.result ++ [pyStripS st.buf], buf := [] }
      else { st with buf := st.buf ++ [c] }

/-- The trailing-buffer emission of runners.py lines 57-58: `if buf:
result.append("".join(buf).strip())`. -/
def finishTok (st : SplitState) : List String :=
  if st.buf = [] then st.result else st.result ++ [pyStripS st.buf]

/-- `split_by_not_in_blocks_or_strings` (runners.py lines 5-60). -/
def split_by_not_in_blocks_or_strings (text : String) (sep : Char) : List String :=
  finishTok (text.data.foldl (splitStep sep)
    { result := [], buf := [], depth := 0, in_quote := Option.none, escape := false })

/-- Characters that never touch the quote, paren, or escape machinery of the
tokenizer. -/
def cleanChar (c : Char) : Bool :=
  !(c = '\'' || c = '"' || c = '(' || c = ')' || c = '\\')

/-- Splitting a character list at every occurrence of `sep` (the pieces, in
order; consecutive separators yield empty pieces). -/
def splitOnSep (sep : Char) : List Char → List (List Char)
  | [] => [[]]
  | c :: cs =>
    if c = sep then [] :: splitOnSep sep cs
    else (splitOnSep sep cs).modifyHead (c :: ·)

/-- Drop the final piece when it is empty (the tokenizer only emits the
trailing buffer when it is nonempty). -/
def dropLastIfEmpty (ps : List (List Char)) : List (List Char) :=
  if ps.getLast? = some [] then ps.dropLast else ps

/-- Reference tokenization of clean input: accumulate a buffer, emit its
stripped form at each separator, and emit the trailing buffer when nonempty. -/
def simpleTok (buf : List Char) : List Char → List String
  | [] => if buf = [] then [] else [pyStripS buf]
  | c :: cs => if c = ' ' then pyStripS buf :: simpleTok [] cs else simpleTok (buf ++ [c]) cs

/-- `BaseEnvironment` (env_types.py lines 2-17): variable store, "last"
register (initially the empty string), and transcript.  The output sink
(`emit`) belongs to the excluded web transport and is not modelled. -/
structure BaseEnvironment where
  _vars : List (String × TypedValue)
  last : TypedValue
  chat : List String

def BaseEnvironment.new : BaseEnvironment :=
  { _vars := [], last := .str "", chat := [] }

/-- `BaseEnvironment.get` (env_types.py lines 37-50): `self.last =
self._vars[name]`.  A missing key raises `KeyError`; on success the method
body ends without `return`, so Python returns `None`. -/
def BaseEnvironment.get (env : BaseEnvironment) (name : String) :
    Except PyError (BaseEnvironment × TypedValue) :=
  match env._vars.lookup name with
  | Option.none => .error .keyError
  | some v => .ok ({ env with last := v }, TypedValue.pyNone)

/-- `BaseEnvironment.set` (env_types.py lines 52-60): unconditional upsert. -/
def BaseEnvironment.set (env : BaseEnvironment) (name : String) (v : TypedValue) :
    BaseEnvironment :=
  { env with _vars := (name, v) :: env._vars.filter (fun p => ¬ p.1 = name) }

/-- A command handler: receives the coerced positional arguments and the
environment, returns the updated environment and, when the handler raised,
the exception (the mutations made before the raise are kept, as in Python). -/
def Handler : Type :=
  List TypedValue → BaseEnvironment → BaseEnvironment × Option PyError

/-- A `BaseRunner` instance (runners.py lines 67-82): stored command name,
argument list, and environment. -/
structure BaseRunner where
  _value : String
  _args : List TypedValue
  env : BaseEnvironment

/-- `BaseRunner.run` (runners.py lines 231-250), with the `COMMANDS` registry
passed explicitly: look up `self._value`, call the handler, and swallow any
exception (missing key or handler-internal) unless `error` is set. -/
def BaseRunner.run (commands : List (String × Handler)) (r : BaseRunner)
    (error : Bool) : Except PyError BaseEnvironment :=
  match commands.lookup r._value with
  | Option.none => if error then .error .keyError else .ok r.env
  | some h =>
    match h r._args r.env with
    | (env', Option.none) => .ok env'
    | (env', some ex) => if error then .error ex else .ok env'

/-- `BaseRunner.from_string` (runners.py lines 212-229): tokenize, coerce the
argument tokens with `to_type` (using a throwaway environment, which
`to_type` never touches), and build the runner.  An empty token list makes
`sp[0]` raise `IndexError`; a coercion failure propagates. -/
def from_string (s : String) (env : BaseEnvironment) : Except PyError BaseRunner :=
  let sp := split_by_not_in_blocks_or_strings s ' '
  match sp with
  | [] => .error .indexError
  | name :: rest =>
    match rest.mapM to_type with
    | .ok args => .ok { _value := name, _args := args, env := env }
    | .error e => .error e

/-- A runner class in the `BaseRunner` hierarchy, as far as command-table
resolution is concerned: whether it is `BaseRunner` itself, and the
`COMMANDS` dict declared on the class itself, if any.  A subclass that
declares no `COMMANDS` attribute resolves the name through inheritance to
the single dict created at runners.py line 65. -/
structure RunnerFamily where
  isBase : Bool
  ownCommands : Option (List (String × Handler))

/-- The mutable dict object bound to `BaseRunner.COMMANDS` (runners.py
line 65). -/
structure CommandState where
  baseCommands : List (String × Handler)

/-- Python attribute resolution of `cls.COMMANDS`: the class's own dict when
it declares one, otherwise the inherited `BaseRunner` dict. -/
def resolveCommands (fam : RunnerFamily) (st : CommandState) : List (String × Handler) :=
  match fam.ownCommands with
  | some d => d
  | Option.none => st.baseCommands

/-- `BaseRunner.register_as_command` (runners.py lines 181-210):
raises `TypeError` on `BaseRunner` itself, otherwise the decorator performs
`cls.COMMANDS[name] = func` -- an item assignment that mutates the dict
`cls.COMMANDS` resolves to (the shared `BaseRunner` dict when the class
declares no `COMMANDS` of its own). -/
def register_as_command (fam : RunnerFamily) (st : CommandState) (name : String)
    (func : Handler) : Except PyError (CommandState × RunnerFamily) :=
  if fam.isBase then .error .typeError
  else
    match fam.ownCommands with
    | some d => .ok (st, { fam with ownCommands := some ((name, func) :: d) })
    | Option.none => .ok ({ baseCommands := (name, func) :: st.baseCommands }, fam)

/-- One heap slot (env_types.py line 66): payload (`None` or a list of
values) and free flag. -/
structure Cell where
  value : Option (List TypedValue)
  free : Bool

/-- `CEnvironment` (env_types.py lines 63-67): the base-environment fields
plus a 255-cell heap and the "first free" cursor (a Python `int`). -/
structure CEnvironment where
  _vars : List (String × TypedValue)
  last : TypedValue
  chat : List String
  heap : List Cell
  _first_free : Int

/-- A freshly constructed `CEnvironment`. -/
def CEnvironment.fresh : CEnvironment :=
  { _vars := [], last := .str "", chat := [],
    heap := List.replicate 255 { value := Option.none, free := true },
    _first_free := 1 }

/-- The cursor-rescan loop of `alloc` (env_types.py lines 76-77):
`while not self.heap[self._first_free]['free']: self._first_free += 1`,
with fuel making termination explicit.  Fuel `heap.length + 1 - i` is enough
to reach the first out-of-range index, where Python raises `IndexError`. -/
def scanFreeF (heap : List Cell) : Nat → Nat → Except PyError Nat
  | 0, _ => .error .indexError
  | f + 1, i =>
    match heap.get? i with
    | Option.none => .error .indexError
    | some c => if c.free then .ok i else scanFreeF heap f (i + 1)

def scanFree (heap : List Cell) (i : Nat) : Except PyError Nat :=
  scanFreeF heap (heap.length + 1 - i) i

/-- `CEnvironment.alloc` (env_types.py lines 69-78): if the cell at the
cursor is occupied return `None`; otherwise occupy it with `amount` `None`
slots, reset the cursor to 1, rescan upward for a free cell (running past
the end of the 255-cell list raises `IndexError`), and return the address as
`str(hex(addr))[2:]`. -/
def CEnvironment.alloc (env : CEnvironment) (amount : Nat) :
    Except PyError (CEnvironment × Option String) :=
  match pyGet env.heap env._first_free with
  | Option.none => .error .indexError
  | some cell =>
    if cell.free = false then .ok (env, Option.none)
    else
      match pySet env.heap env._first_free
          { value := some (List.replicate amount TypedValue.pyNone), free := false } with
      | Option.none => .error .indexError
      | some heap1 =>
        match scanFree heap1 1 with
        | .error e => .error e
        | .ok j =>
          .ok ({ env with heap := heap1, _first_free := (j : Int) },
               some (strSlice2 (hexPy env._first_free)))

/-- `CEnvironment.free` (env_types.py lines 80-84): parse the address with
`int(addr, 16)`, mark the cell free, clear the payload, and point the cursor
at the freed address. -/
def CEnvironment.free (env : CEnvironment) (addr : String) :
    Except PyError CEnvironment :=
  match pyIntBase16 addr with
  | Option.none => .error .valueError
  | some a =>
    match pyGet env.heap a with
    | Option.none => .error .indexError
    | some _ =>
      match pySet env.heap a { value := Option.none, free := true } with
      | Option.none => .error .indexError
      | some heap1 => .ok { env with heap := heap1, _first_free := a }

/-- A heap operation issued by a handler: `alloc(amount)` or `free(addr)`. -/
inductive HeapOp where
  | alloc (amount : Nat)
  | free (addr : String)

/-- Run a sequence of heap operations, collecting every value returned by
`alloc`; the first exception aborts the run. -/
def runOps : CEnvironment → List HeapOp → Except PyError (CEnvironment × List (Option String))
  | env, [] => .ok (env, [])
  | env, HeapOp.alloc n :: rest =>
    match env.alloc n with
    | .ok (e', a) =>
      match runOps e' rest with
      | .ok (ef, as) => .ok (ef, a :: as)
      | .error e => .error e
    | .error e => .error e
  | env, HeapOp.free addr :: rest =>
    match env.free addr with
    | .ok e' => runOps e' rest
    | .error e => .error e

/-- `addr` currently names an occupied heap cell obtained from a prior
allocation: it parses as a hex integer in `[1, 255)` and the cell at that
index is occupied. -/
def addrOccupied (env : CEnvironment) (addr : String) : Bool :=
  match pyIntBase16 addr with
  | some a =>
    decide (1 ≤ a) && decide (a < 255) &&
      (match pyGet env.heap a with
       | some c => !c.free
       | Option.none => false)
  | Option.none => false

/-- In the given start state, every `free` in the sequence is applied to an
address that is occupied from a prior allocation at the moment it runs. -/
def freesValid : CEnvironment → List HeapOp → Bool
  | _, [] => true
  | env, HeapOp.alloc n :: rest =>
    match env.alloc n with
    | .ok (e', _) => freesValid e' rest
    | .error _ => true
  | env, HeapOp.free addr :: rest =>
    addrOccupied env addr &&
      (match env.free addr with
       | .ok e' => freesValid e' rest
       | .error _ => true)

/-- `n` consecutive `alloc(1)` requests, propagating the first exception. -/
def allocDrain : Nat → CEnvironment → Except PyError CEnvironment
  | 0, env => .ok env
  | n + 1, env =>
    match env.alloc 1 with
    | .ok (e', _) => allocDrain n e'
    | .error e => .error e

/-- An occupied cell as produced by `alloc(1)`. -/
def occCell : Cell := { value := some [TypedValue.pyNone], free := false }

/-- An untouched cell. -/
def freeCell : Cell := { value := Option.none, free := true }

/-- The heap after the first `k` cells above the reserved null cell have been
allocated by consecutive `alloc(1)` calls: cells `1..k` occupied, all others
free. -/
def drainedHeap (k : Nat) : List Cell :=
  (List.range 255).map fun i => if i ≠ 0 ∧ i ≤ k then occCell else freeCell

/-- The environment after `k` consecutive `alloc(1)` calls on a fresh heap. -/
def drainedEnv (k : Nat) : CEnvironment :=
  { _vars := [], last := .str "", chat := [],
    heap := drainedHeap k, _first_free := ((k + 1 : Nat) : Int) }

/-- The spec's heap round-trip scenario: `alloc(1)`, `free` the returned
address, `alloc(1)` again; the pair of returned addresses. -/
def c7run : Except PyError (Option String × Option String) :=
  (CEnvironment.fresh.alloc 1).bind fun p =>
    match p.2 with
    | some a => (p.1.free a).bind fun e2 => (e2.alloc 1).map fun q => (some a, q.2)
    | Option.none => .ok (Option.none, Option.none)

/-- A handler that raises `ValueError` without touching the environment. -/
def failHandler : Handler := fun _ env => (env, some .valueError)

/-- A handler that returns normally without touching the environment. -/
def okHandler : Handler := fun _ env => (env, Option.none)

/-- A concrete valid operation sequence used to witness the cell-0 theorem. -/
def c9ops : List HeapOp :=
  [HeapOp.alloc 1, HeapOp.alloc 2, HeapOp.free "1", HeapOp.alloc 1]

/-- The outcome of `c9ops` on a fresh heap. -/
def c9pair : CEnvironment × List (Option String) :=
  match runOps CEnvironment.fresh c9ops with
  | .ok p => p
  | .error _ => (CEnvironment.fresh, [])

set_option maxRecDepth 40000

/-- C1: the claim says `to_typed` is total and never raises; the code is
wrong.  On the token `"xyz"` the call `self.floating(s)` evaluates
`float("xyz")`, which raises `ValueError`; the `except TypeError` clause
(runners.py line 99) does not catch it, so `to_type` raises instead of
returning `Variable("xyz")` as its own docstring promises. -/
theorem to_type_raises_on_variable_token :
    floating "xyz" = .error PyError.valueError ∧
    to_type "xyz" = .error PyError.valueError :=
  ⟨rfl, rfl⟩

/-- C2: the actual values of `to_type` on the spec's example tokens.  The
quoted, integer and float examples behave as claimed (the float payload
`425 / 10` is the exact value `42.5`), but `to_type "0xff"` and
`to_type "(foo bar)"` raise `ValueError` from `floating` instead of
returning `HexValue(255)` and a `Block`. -/
theorem to_type_literal_examples :
    to_type "42" = .ok (.int 42) ∧
    to_type "42.5" = .ok (.float (PyFloat.finite 425 10)) ∧
    (PyFloat.finite 425 10).toRat = some (85 / 2 : ℚ) ∧
    to_type "\"hi\"" = .ok (.str "hi") ∧
    to_type "0xff" = .error PyError.valueError ∧
    to_type "(foo bar)" = .error PyError.valueError := by
  refine ⟨rfl, rfl, ?_, rfl, rfl, rfl⟩
  simp [PyFloat.toRat]
  norm_num

/-- C3 counterexample: tokenizing `"a  b"` (two spaces) with separator `' '`
yields the empty token `""` between `"a"` and `"b"`, not the
whitespace-split `["a", "b"]` the claim describes: line 52 of runners.py
appends the stripped buffer unconditionally at every separator. -/
theorem tokenize_space_run_split_cex :
    split_by_not_in_blocks_or_strings "a  b" ' ' ≠ ["a", "b"] ∧
    split_by_not_in_blocks_or_strings "a  b" ' ' = ["a", "", "b"] := by
  exact ⟨by decide, rfl⟩

/-- C4 (amended): outside quotes, `)` decrements the paren depth
unconditionally -- there is no floor at zero, so excess closing parens drive
the depth negative -- and while the depth is nonzero (negative included) a
separator character does not split: it is appended to the buffer. -/
theorem close_paren_decrements_no_floor (st : SplitState) (sep : Char)
    (h1 : st.escape = false) (h2 : st.in_quote = Option.none) :
    (splitStep sep st ')').depth = st.depth - 1 ∧
    (splitStep sep st ')').result = st.result ∧
    (splitStep sep st ')').buf = st.buf ++ [')'] ∧
    (st.depth ≠ 0 → cleanChar sep = true →
      (splitStep sep st sep).result = st.result ∧
      (splitStep sep st sep).buf = st.buf ++ [sep]) := by
  simp only [cleanChar, Bool.not_eq_true', Bool.or_eq_false_iff, decide_eq_false_iff_not]
  refine ⟨?_, ?_, ?_, ?_⟩
  · simp [splitStep, h1, h2]
  · simp [splitStep, h1, h2]
  · simp [splitStep, h1, h2]
  · intro hd hsep
    obtain ⟨⟨⟨⟨hq1, hq2⟩, hp1⟩, hp2⟩, hb⟩ := hsep
    constructor
    · simp [splitStep, h1, h2, hq1, hq2, hp1, hp2, hb, hd]
    · simp [splitStep, h1, h2, hq1, hq2, hp1, hp2, hb, hd]

/-- C4 witness: at depth `0` a `)` moves the depth to `-1`, and in the
resulting depth `-1` state a space separator is buffered, not split on. -/
theorem close_paren_decrements_no_floor_witness :
    (splitStep ' ' ⟨[], [], 0, Option.none, false⟩ ')').depth = 0 - 1 ∧
    ((splitStep ' ' ⟨[], [')'], -1, Option.none, false⟩ ' ').result = [] ∧
     (splitStep ' ' ⟨[], [')'], -1, Option.none, false⟩ ' ').buf = [')'] ++ [' ']) :=
  ⟨(close_paren_decrements_no_floor _ ' ' rfl rfl).1,
   (close_paren_decrements_no_floor _ ' ' rfl rfl).2.2.2 (by decide) (by decide)⟩

/-- C4 counterexample: the claim's floor at zero does not exist.  A `)` at
depth `0` yields depth `-1`, and consequently `") a"` tokenizes as the single
token `") a"` -- the separator after the excess closing paren does not split
at top level. -/
theorem close_paren_floor_cex :
    (splitStep ' ' ⟨[], [], 0, Option.none, false⟩ ')').depth = -1 ∧
    split_by_not_in_blocks_or_strings ") a" ' ' = [") a"] :=
  ⟨rfl, rfl⟩

/-- C5 (amended): `get(name)` raises `KeyError` (a `LookupError`, not a
`NameError`) when `name` is absent; when present it sets the "last" register
to the resolved value and returns Python `None` -- the value is delivered
through `last`, not through the return value. -/
theorem env_get_keyerror_and_returns_none (env : BaseEnvironment) (name : String) :
    (env._vars.lookup name = Option.none → env.get name = .error PyError.keyError) ∧
    ∀ v, env._vars.lookup name = some v →
      env.get name = .ok ({ env with last := v }, TypedValue.pyNone) := by
  constructor
  · intro h
    simp [BaseEnvironment.get, h]
  · intro v h
    simp [BaseEnvironment.get, h]

/-- C5 witness: a concrete miss and a concrete hit. -/
theorem env_get_keyerror_and_returns_none_witness :
    BaseEnvironment.new.get "y" = .error PyError.keyError ∧
    BaseEnvironment.get { _vars := [("a", TypedValue.int 7)], last := .str "", chat := [] } "a"
      = .ok ({ _vars := [("a", TypedValue.int 7)], last := TypedValue.int 7, chat := [] },
             TypedValue.pyNone) :=
  ⟨(env_get_keyerror_and_returns_none BaseEnvironment.new "y").1 rfl,
   (env_get_keyerror_and_returns_none _ "a").2 (TypedValue.int 7) rfl⟩

/-- C5 counterexample: on a miss the raised class is `KeyError`, not the
claimed `NameError` class; on a hit the function returns `None`, not the
resolved value (`5` is stored, `None` is returned). -/
theorem env_get_claim_cex :
    (BaseEnvironment.new.get "x" = .error PyError.keyError ∧
      PyError.keyError ≠ PyError.nameError) ∧
    (BaseEnvironment.get { _vars := [("x", TypedValue.int 5)], last := .str "", chat := [] } "x"
        = .ok ({ _vars := [("x", TypedValue.int 5)], last := TypedValue.int 5, chat := [] },
               TypedValue.pyNone) ∧
      TypedValue.pyNone ≠ TypedValue.int 5) :=
  ⟨⟨rfl, by decide⟩, ⟨rfl, fun h => TypedValue.noConfusion h⟩⟩

/-- C7: on a fresh heap, `alloc(1)`, `free` of the returned address, then
`alloc(1)` again returns the hex address `"1"` both times, because `free`
sets the next-free cursor directly to the freed address. -/
theorem alloc_free_alloc_same_address : c7run = .ok (some "1", some "1") := rfl

/-- C8: running an invocation whose command name is missing from the
registry with `error=False` returns normally and leaves the environment
value untouched (variables, "last", transcript); with `error=True` the
`KeyError` propagates.  A handler-internal exception is likewise swallowed
with `error=False` (keeping the handler's mutations) and re-raised with
`error=True`. -/
theorem run_unknown_command_policy (commands : List (String × Handler)) (r : BaseRunner) :
    (commands.lookup r._value = Option.none →
      r.run commands false = .ok r.env ∧ r.run commands true = .error PyError.keyError) ∧
    ∀ h env' ex, commands.lookup r._value = some h → h r._args r.env = (env', some ex) →
      r.run commands false = .ok env' ∧ r.run commands true = .error ex := by
  constructor
  · intro hl
    simp [BaseRunner.run, hl]
  · intro h env' ex hl hh
    simp [BaseRunner.run, hl, hh]

/-- C8 witness: the unknown command `"nope"` on an empty registry, and a
registered handler that raises `ValueError`. -/
theorem run_unknown_command_policy_witness :
    (BaseRunner.run [] { _value := "nope", _args := [], env := BaseEnvironment.new } false
        = .ok BaseEnvironment.new ∧
     BaseRunner.run [] { _value := "nope", _args := [], env := BaseEnvironment.new } true
        = .error PyError.keyError) ∧
    (BaseRunner.run [("boom", failHandler)]
        { _value := "boom", _args := [], env := BaseEnvironment.new } false
        = .ok BaseEnvironment.new ∧
     BaseRunner.run [("boom", failHandler)]
        { _value := "boom", _args := [], env := BaseEnvironment.new } true
        = .error PyError.valueError) :=
  ⟨(run_unknown_command_policy [] _).1 rfl,
   (run_unknown_command_policy [("boom", failHandler)] _).2 failHandler
     BaseEnvironment.new PyError.valueError rfl rfl⟩

/-- C10: a runner family with no `COMMANDS` of its own shares the single
dict created on `BaseRunner`: registering a handler through one such family
mutates that shared dict, so resolving and looking the name up through any
other such family finds the same handler, and `run` dispatches to it. -/
theorem shared_commands_registry (st : CommandState) (A B : RunnerFamily)
    (name : String) (func : Handler) (args : List TypedValue) (env : BaseEnvironment)
    (er : Bool) (hA : A.isBase = false) (hAo : A.ownCommands = Option.none)
    (hBo : B.ownCommands = Option.none) :
    register_as_command A st name func
      = .ok ({ baseCommands := (name, func) :: st.baseCommands }, A) ∧
    (resolveCommands B { baseCommands := (name, func) :: st.baseCommands }).lookup name
      = some func ∧
    BaseRunner.run (resolveCommands B { baseCommands := (name, func) :: st.baseCommands })
        { _value := name, _args := args, env := env } er
      = (match func args env with
         | (env', Option.none) => .ok env'
         | (env', some ex) => if er then .error ex else .ok env') := by
  refine ⟨?_, ?_, ?_⟩
  · simp [register_as_command, hA, hAo]
  · simp [resolveCommands, hBo, List.lookup]
  · simp [resolveCommands, hBo, BaseRunner.run, List.lookup]

/-- C10 witness: two concrete `COMMANDS`-less families over an empty base
registry. -/
theorem shared_commands_registry_witness :
    register_as_command { isBase := false, ownCommands := Option.none }
        { baseCommands := [] } "echo" okHandler
      = .ok ({ baseCommands := [("echo", okHandler)] },
             { isBase := false, ownCommands := Option.none }) ∧
    (resolveCommands { isBase := false, ownCommands := Option.none }
        { baseCommands := [("echo", okHandler)] }).lookup "echo" = some okHandler ∧
    BaseRunner.run (resolveCommands { isBase := false, ownCommands := Option.none }
        { baseCommands := [("echo", okHandler)] })
        { _value := "echo", _args := [], env := BaseEnvironment.new } false
      = (match okHandler [] BaseEnvironment.new with
         | (env', Option.none) => .ok env'
         | (env', some ex) => if false then .error ex else .ok env') :=
  shared_commands_registry { baseCommands := [] } _ _ "echo" okHandler [] BaseEnvironment.new
    false rfl rfl rfl

/-- On a clean character (no quote, paren, or backslash) at depth 0 outside
quotes, the tokenizer step either splits (on the separator) or appends. -/
theorem splitStep_clean (c : Char) (hc : cleanChar c = true)
    (res : List String) (buf : List Char) :
    splitStep ' ' ⟨res, buf, 0, Option.none, false⟩ c =
      if c = ' ' then ⟨res ++ [pyStripS buf], [], 0, Option.none, false⟩
      else ⟨res, buf ++ [c], 0, Option.none, false⟩ := by
  simp only [cleanChar, Bool.not_eq_true', Bool.or_eq_false_iff,
    decide_eq_false_iff_not] at hc
  obtain ⟨⟨⟨⟨hq1, hq2⟩, hp1⟩, hp2⟩, hb⟩ := hc
  by_cases hsp : c = ' '
  · simp [splitStep, hq1, hq2, hp1, hp2, hb, hsp]
  · simp [splitStep, hq1, hq2, hp1, hp2, hb, hsp]

/-- Folding the tokenizer over clean input from a depth-0 state reduces to
the straightforward buffer/emit recursion `simpleTok`. -/
theorem foldClean (cs : List Char) : ∀ res buf, cs.all cleanChar = true →
    finishTok (cs.foldl (splitStep ' ') ⟨res, buf, 0, Option.none, false⟩)
      = res ++ simpleTok buf cs := by
  induction cs with
  | nil =>
    intro res buf _
    by_cases hb : buf = [] <;> simp [finishTok, simpleTok, hb]
  | cons c cs ih =>
    intro res buf hall
    rw [List.all_cons, Bool.and_eq_true] at hall
    obtain ⟨hc, hcs⟩ := hall
    rw [List.foldl_cons, splitStep_clean c hc res buf]
    by_cases hsp : c = ' '
    · rw [if_pos hsp, ih _ _ hcs]
      simp [simpleTok, hsp]
    · rw [if_neg hsp, ih _ _ hcs]
      simp [simpleTok, hsp]

/-- `splitOnSep` always returns at least one piece. -/
theorem splitOnSep_ne_nil (sep : Char) (cs : List Char) : splitOnSep sep cs ≠ [] := by
  induction cs with
  | nil => simp [splitOnSep]
  | cons c cs ih =>
    by_cases h : c = sep
    · simp [splitOnSep, h]
    · simp only [splitOnSep, h, if_false, ite_false]
      cases hs : splitOnSep sep cs with
      | nil => exact absurd hs ih
      | cons p ps => simp [List.modifyHead]

/-- Prepending to the head piece with an empty prefix changes nothing. -/
theorem modifyHead_nil_append (L : List (List Char)) :
    L.modifyHead (fun p => [] ++ p) = L := by
  cases L <;> simp [List.modifyHead]

/-- The buffer/emit recursion equals: split at every separator, prepend the
carried buffer to the first piece, drop a trailing empty piece, strip each
piece. -/
theorem simpleTok_eq (cs : List Char) : ∀ buf,
    simpleTok buf cs
      = (dropLastIfEmpty ((splitOnSep ' ' cs).modifyHead (buf ++ ·))).map pyStripS := by
  induction cs with
  | nil =>
    intro buf
    by_cases hb : buf = [] <;>
      simp [simpleTok, splitOnSep, dropLastIfEmpty, hb, List.modifyHead]
  | cons c cs ih =>
    intro buf
    by_cases hsp : c = ' '
    · rw [show simpleTok buf (c :: cs) = pyStripS buf :: simpleTok [] cs by
        simp [simpleTok, hsp]]
      rw [ih [], modifyHead_nil_append]
      rw [show splitOnSep ' ' (c :: cs) = [] :: splitOnSep ' ' cs by
        simp [splitOnSep, hsp]]
      cases hs : splitOnSep ' ' cs with
      | nil => exact absurd hs (splitOnSep_ne_nil ' ' cs)
      | cons p ps =>
        rw [show ([] :: p :: ps).modifyHead (buf ++ ·) = buf :: p :: ps by
          simp [List.modifyHead]]
        by_cases hlast : (p :: ps).getLast? = some []
        · simp [dropLastIfEmpty, hlast, List.getLast?_cons_cons, List.dropLast_cons₂]
        · simp [dropLastIfEmpty, hlast, List.getLast?_cons_cons]
    · rw [show simpleTok buf (c :: cs) = simpleTok (buf ++ [c]) cs by
        simp [simpleTok, hsp]]
      rw [ih (buf ++ [c])]
      rw [show splitOnSep ' ' (c :: cs) = (splitOnSep ' ' cs).modifyHead (c :: ·) by
        simp [splitOnSep, hsp]]
      cases hs : splitOnSep ' ' cs with
      | nil => exact absurd hs (splitOnSep_ne_nil ' ' cs)
      | cons p ps => simp [List.modifyHead, List.append_assoc]

/-- C3 (amended): for every input string containing no quote, parenthesis,
or backslash characters, tokenizing with separator `' '` yields the pieces
obtained by splitting at every occurrence of the separator, each trimmed --
so consecutive separators produce empty tokens -- and the trailing buffer is
emitted as a final (trimmed) token exactly when it is nonempty, which is
what dropping a trailing empty piece expresses. -/
theorem tokenize_space_clean_split (s : String)
    (h : s.data.all cleanChar = true) :
    split_by_not_in_blocks_or_strings s ' '
      = (dropLastIfEmpty (splitOnSep ' ' s.data)).map pyStripS := by
  unfold split_by_not_in_blocks_or_strings
  rw [foldClean s.data [] [] h, List.nil_append, simpleTok_eq, modifyHead_nil_append]

/-- C3 witness: the clean input `"ab  c "` (double space, trailing space). -/
theorem tokenize_space_clean_split_witness :
    ("ab  c ".data.all cleanChar = true) ∧
    split_by_not_in_blocks_or_strings "ab  c " ' '
      = (dropLastIfEmpty (splitOnSep ' ' "ab  c ".data)).map pyStripS :=
  ⟨rfl, tokenize_space_clean_split "ab  c " rfl⟩

/-- A successful `get?` implies the index is in range. -/
theorem get?_some_lt {α : Type} {l : List α} {i : Nat} {a : α}
    (h : l.get? i = some a) : i < l.length := by
  by_contra hcon
  push_neg at hcon
  rw [List.get?_eq_none.2 hcon] at h
  exact Option.noConfusion h

/-- `pyGet` at a natural index is plain list lookup. -/
theorem pyGet_natCast {α : Type} (l : List α) (n : Nat) :
    pyGet l ((n : Nat) : Int) = l.get? n := by
  simp [pyGet]

/-- `pySet` at an in-range natural index is plain list update. -/
theorem pySet_natCast {α : Type} (l : List α) (n : Nat) (a : α) (h : n < l.length) :
    pySet l ((n : Nat) : Int) a = some (l.set n a) := by
  simp [pySet, h]

/-- The rescan loop returns an index no smaller than its starting point. -/
theorem scanFreeF_ge (heap : List Cell) : ∀ (f i j : Nat),
    scanFreeF heap f i = .ok j → i ≤ j := by
  intro f
  induction f with
  | zero =>
    intro i j h
    exact absurd h (by simp [scanFreeF])
  | succ f ih =>
    intro i j h
    rw [scanFreeF] at h
    cases hg : heap.get? i with
    | none => rw [hg] at h; exact absurd h (by simp)
    | some c =>
      rw [hg] at h
      by_cases hf : c.free = true
      · simp [hf] at h
        omega
      · rw [Bool.not_eq_true] at hf
        simp [hf] at h
        have := ih (i + 1) j h
        omega

/-- The rescan loop walks over a block of occupied cells. -/
theorem scanFreeF_skip (heap : List Cell) : ∀ (d f i : Nat),
    (∀ m, i ≤ m → m < i + d → ∃ c, heap.get? m = some c ∧ c.free = false) →
    d ≤ f → scanFreeF heap f i = scanFreeF heap (f - d) (i + d) := by
  intro d
  induction d with
  | zero => intro f i _ _; simp
  | succ d ih =>
    intro f i hocc hf
    obtain ⟨c, hg, hc⟩ := hocc i (le_refl i) (by omega)
    obtain ⟨f', rfl⟩ : ∃ f', f = f' + 1 := ⟨f - 1, by omega⟩
    rw [scanFreeF, hg]
    simp only [hc, Bool.false_eq_true, if_false]
    have hocc' : ∀ m, i + 1 ≤ m → m < i + 1 + d →
        ∃ c, heap.get? m = some c ∧ c.free = false := by
      intro m hm1 hm2
      exact hocc m (by omega) (by omega)
    have := ih f' (i + 1) hocc' (by omega)
    rw [this]
    have h1 : f' + 1 - (d + 1) = f' - d := by omega
    have h2 : i + (d + 1) = i + 1 + d := by omega
    rw [h1, h2]

theorem drainedHeap_length (k : Nat) : (drainedHeap k).length = 255 := by
  simp [drainedHeap]

theorem drainedHeap_get (k i : Nat) :
    (drainedHeap k).get? i
      = if i < 255 then some (if i ≠ 0 ∧ i ≤ k then occCell else freeCell)
        else Option.none := by
  by_cases h : i < 255
  · rw [if_pos h]
    unfold drainedHeap
    rw [List.get?_map, List.get?_range h]
    rfl
  · rw [if_neg h]
    apply List.get?_eq_none.2
    rw [drainedHeap_length]
    omega

/-- Occupying the first free cell of a drained heap drains one more cell. -/
theorem drainedHeap_set (k : Nat) (hk : k + 1 ≤ 254) :
    (drainedHeap k).set (k + 1) occCell = drainedHeap (k + 1) := by
  apply List.ext_get?
  intro n
  by_cases hn : n = k + 1
  · subst hn
    rw [List.get?_set_eq_of_lt occCell (by rw [drainedHeap_length]; omega)]
    rw [drainedHeap_get, if_pos (by omega), if_pos ⟨by omega, le_refl _⟩]
  · rw [List.get?_set_ne occCell _ (Ne.symm hn)]
    rw [drainedHeap_get, drainedHeap_get]
    by_cases h255 : n < 255
    · rw [if_pos h255, if_pos h255]
      by_cases hc : n ≠ 0 ∧ n ≤ k
      · rw [if_pos hc, if_pos ⟨hc.1, by omega⟩]
      · rw [if_neg hc, if_neg (by omega)]
    · rw [if_neg h255, if_neg h255]

/-- Cells `1..k` of a drained heap are occupied. -/
theorem drainedHeap_occ (k m : Nat) (h1 : 1 ≤ m) (h2 : m ≤ k) (h3 : k ≤ 254) :
    ∃ c, (drainedHeap k).get? m = some c ∧ c.free = false := by
  refine ⟨occCell, ?_, rfl⟩
  rw [drainedHeap_get, if_pos (by omega), if_pos ⟨by omega, h2⟩]

/-- While a free in-range cell remains, the rescan finds the first one. -/
theorem scanFree_drained_mid (k : Nat) (hk : k + 2 ≤ 254) :
    scanFree (drainedHeap (k + 1)) 1 = .ok (k + 2) := by
  unfold scanFree
  rw [drainedHeap_length]
  have hocc : ∀ m, 1 ≤ m → m < 1 + (k + 1) →
      ∃ c, (drainedHeap (k + 1)).get? m = some c ∧ c.free = false :=
    fun m hm1 hm2 => drainedHeap_occ (k + 1) m hm1 (by omega) (by omega)
  have hskip := scanFreeF_skip (drainedHeap (k + 1)) (k + 1) 255 1 hocc (by omega)
  rw [show (255 + 1 - 1 : Nat) = 255 from rfl, hskip]
  obtain ⟨f', hf'⟩ : ∃ f', 255 - (k + 1) = f' + 1 := ⟨254 - (k + 1), by omega⟩
  rw [hf', show 1 + (k + 1) = k + 2 by omega, scanFreeF]
  rw [drainedHeap_get, if_pos (by omega : k + 2 < 255),
    if_neg (by omega : ¬(k + 2 ≠ 0 ∧ k + 2 ≤ k + 1))]
  rfl

/-- When every usable cell is occupied, the rescan runs off the end of the
heap list. -/
theorem scanFree_drained_full :
    scanFree (drainedHeap 254) 1 = .error PyError.indexError := by
  unfold scanFree
  rw [drainedHeap_length]
  have hocc : ∀ m, 1 ≤ m → m < 1 + 254 →
      ∃ c, (drainedHeap 254).get? m = some c ∧ c.free = false :=
    fun m hm1 hm2 => drainedHeap_occ 254 m hm1 (by omega) (by omega)
  have hskip := scanFreeF_skip (drainedHeap 254) 254 255 1 hocc (by omega)
  rw [show (255 + 1 - 1 : Nat) = 255 from rfl, hskip]
  rw [show (255 - 254 : Nat) = 1 from rfl, show (1 + 254 : Nat) = 255 from rfl, scanFreeF]
  rw [drainedHeap_get, if_neg (by omega : ¬(255 < 255))]

/-- One successful `alloc(1)` on a partially drained heap. -/
theorem drain_step (k : Nat) (hk : k ≤ 252) :
    (drainedEnv k).alloc 1
      = .ok (drainedEnv (k + 1), some (strSlice2 (hexPy ((k + 1 : Nat) : Int)))) := by
  have hget : pyGet (drainedHeap k) ((k + 1 : Nat) : Int) = some freeCell := by
    rw [pyGet_natCast, drainedHeap_get, if_pos (by omega),
      if_neg (by omega : ¬(k + 1 ≠ 0 ∧ k + 1 ≤ k))]
  have hset : pySet (drainedHeap k) ((k + 1 : Nat) : Int)
      ({ value := some (List.replicate 1 TypedValue.pyNone), free := false } : Cell)
      = some (drainedHeap (k + 1)) := by
    rw [show ({ value := some (List.replicate 1 TypedValue.pyNone), free := false } : Cell)
        = occCell from rfl]
    rw [pySet_natCast _ _ _ (by rw [drainedHeap_length]; omega), drainedHeap_set k (by omega)]
  have hscan := scanFree_drained_mid k (by omega)
  simp only [CEnvironment.alloc, drainedEnv, hget, hset, hscan, freeCell,
    Bool.true_eq_false, if_false]

/-- The allocation that exhausts the last usable cell crashes in the rescan. -/
theorem drain_last : (drainedEnv 253).alloc 1 = .error PyError.indexError := by
  have hget : pyGet (drainedHeap 253) ((253 + 1 : Nat) : Int) = some freeCell := by
    rw [pyGet_natCast, drainedHeap_get, if_pos (by omega),
      if_neg (by omega : ¬((253 : Nat) + 1 ≠ 0 ∧ (253 : Nat) + 1 ≤ 253))]
  have hset : pySet (drainedHeap 253) ((253 + 1 : Nat) : Int)
      ({ value := some (List.replicate 1 TypedValue.pyNone), free := false } : Cell)
      = some (drainedHeap 254) := by
    rw [show ({ value := some (List.replicate 1 TypedValue.pyNone), free := false } : Cell)
        = occCell from rfl]
    rw [pySet_natCast _ _ _ (by rw [drainedHeap_length]; omega), drainedHeap_set 253 (by omega)]
  have hscan := scanFree_drained_full
  simp only [CEnvironment.alloc, drainedEnv, hget, hset, hscan, freeCell,
    Bool.true_eq_false, if_false]

/-- Chaining: from the state after `k` allocations, `254 - k` further
`alloc(1)` calls end in `IndexError`. -/
theorem drain_aux : ∀ (n k : Nat), 1 ≤ n → k + n = 254 →
    allocDrain n (drainedEnv k) = .error PyError.indexError := by
  intro n
  induction n with
  | zero =>
    intro k h1 _
    exact absurd h1 (by omega)
  | succ m ih =>
    intro k _ hsum
    by_cases hm : m = 0
    · subst hm
      have hk : k = 253 := by omega
      subst hk
      simp only [allocDrain, drain_last]
    · have hk : k ≤ 252 := by omega
      simp only [allocDrain, drain_step k hk]
      exact ih (k + 1) (by omega) (by omega)

/-- C6: the claim is right about the intended sentinel behaviour and the
code is wrong.  On a fresh heap, 254 consecutive `alloc(1)` requests exhaust
cells `1..254`; the allocation that occupies the last usable cell then
rescans from index 1, never re-examines the reserved free cell 0, runs past
the end of the 255-cell list, and raises `IndexError` (env_types.py lines
76-77) -- no call ever returns the out-of-memory sentinel `None`. -/
theorem alloc_exhaustion_index_error :
    allocDrain 254 CEnvironment.fresh = .error PyError.indexError := by
  rw [show CEnvironment.fresh = drainedEnv 0 from rfl]
  exact drain_aux 254 0 (by omega) (by omega)

/-- Equation lemmas for the trace functions. -/
theorem freesValid_alloc (env : CEnvironment) (n : Nat) (rest : List HeapOp) :
    freesValid env (HeapOp.alloc n :: rest)
      = (match env.alloc n with
         | .ok (e', _) => freesValid e' rest
         | .error _ => true) := rfl

theorem freesValid_free (env : CEnvironment) (addr : String) (rest : List HeapOp) :
    freesValid env (HeapOp.free addr :: rest)
      = (addrOccupied env addr &&
          (match env.free addr with
           | .ok e' => freesValid e' rest
           | .error _ => true)) := rfl

theorem runOps_alloc (env : CEnvironment) (n : Nat) (rest : List HeapOp) :
    runOps env (HeapOp.alloc n :: rest)
      = (match env.alloc n with
         | .ok (e', a) =>
           (match runOps e' rest with
            | .ok (ef, as) => .ok (ef, a :: as)
            | .error e => .error e)
         | .error e => .error e) := rfl

theorem runOps_free (env : CEnvironment) (addr : String) (rest : List HeapOp) :
    runOps env (HeapOp.free addr :: rest)
      = (match env.free addr with
         | .ok e' => runOps e' rest
         | .error e => .error e) := rfl

/-- A successful `pyGet` at a nonnegative index is a plain lookup. -/
theorem pyGet_eq_some {α : Type} {l : List α} {i : Int} {a : α}
    (hi : 0 ≤ i) (h : pyGet l i = some a) : l.get? i.toNat = some a := by
  unfold pyGet at h
  rw [if_pos hi] at h
  exact h

/-- A successful `pySet` at a nonnegative index is a plain in-range update. -/
theorem pySet_eq_some {α : Type} {l : List α} {i : Int} {a : α} {l' : List α}
    (hi : 0 ≤ i) (h : pySet l i a = some l') :
    l' = l.set i.toNat a ∧ i.toNat < l.length := by
  unfold pySet at h
  rw [if_pos hi] at h
  by_cases hlt : i.toNat < l.length
  · rw [if_pos hlt] at h
    injection h with h'
    exact ⟨h'.symm, hlt⟩
  · rw [if_neg hlt] at h
    exact absurd h (by simp)

theorem natHexAux_append (f : Nat) : ∀ (n : Nat) (acc : List Char),
    ∃ ds, natHexAux f n acc = ds ++ acc := by
  induction f with
  | zero => intro n acc; exact ⟨[], rfl⟩
  | succ f ih =>
    intro n acc
    rw [natHexAux]
    by_cases hn : n = 0
    · rw [if_pos hn]
      exact ⟨[], rfl⟩
    · rw [if_neg hn]
      obtain ⟨ds, hds⟩ := ih (n / 16) (hexDigitChar (n % 16) :: acc)
      refine ⟨ds ++ [hexDigitChar (n % 16)], ?_⟩
      rw [hds, List.append_assoc]
      rfl

theorem natHexAux_len (f n : Nat) (acc : List Char) :
    acc.length ≤ (natHexAux f n acc).length := by
  obtain ⟨ds, hds⟩ := natHexAux_append f n acc
  rw [hds, List.length_append]
  omega

theorem natHexAux_zero (f : Nat) (acc : List Char) : natHexAux f 0 acc = acc := by
  cases f with
  | zero => rfl
  | succ f => rw [natHexAux, if_pos rfl]

theorem hexDigitChar_eq_zero {k : Nat} (hk : k < 16) (h : hexDigitChar k = '0') :
    k = 0 := by
  interval_cases k <;> revert h <;> decide

/-- The hex rendering of a positive number is never the single digit `0`. -/
theorem natHexDigits_ne_single_zero {m : Nat} (hm : 1 ≤ m) :
    natHexDigits m ≠ ['0'] := by
  unfold natHexDigits
  rw [if_neg (by omega : ¬ m = 0)]
  obtain ⟨f, rfl⟩ : ∃ f, m = f + 1 := ⟨m - 1, by omega⟩
  rw [natHexAux, if_neg (by omega : ¬ f + 1 = 0)]
  by_cases h16 : (f + 1) / 16 = 0
  · rw [h16, natHexAux_zero]
    intro heq
    have hd : hexDigitChar ((f + 1) % 16) = '0' := by
      simpa using heq
    have hz := hexDigitChar_eq_zero (Nat.mod_lt _ (by omega)) hd
    have := Nat.div_add_mod (f + 1) 16
    omega
  · have h16' : 16 ≤ f + 1 := by
      by_contra hlt
      push_neg at hlt
      exact h16 (Nat.div_eq_of_lt hlt)
    obtain ⟨g, rfl⟩ : ∃ g, f = g + 1 := ⟨f - 1, by omega⟩
    rw [natHexAux, if_neg h16]
    intro heq
    have hlen := natHexAux_len g ((g + 1 + 1) / 16 / 16)
      (hexDigitChar ((g + 1 + 1) / 16 % 16) :: [hexDigitChar ((g + 1 + 1) % 16)])
    rw [heq] at hlen
    simp at hlen

/-- Addresses rendered by `alloc` from a positive cursor are never `"0"`. -/
theorem hexPy_slice_ne_zero {i : Int} (h : 1 ≤ i) : strSlice2 (hexPy i) ≠ "0" := by
  unfold hexPy
  rw [if_neg (by omega : ¬ i < 0)]
  unfold strSlice2
  intro heq
  have hdata := congrArg String.data heq
  have hds : natHexDigits i.toNat = ['0'] := by
    simpa using hdata
  exact natHexDigits_ne_single_zero (by omega) hds

/-- `alloc` preserves the heap invariant (cursor at least 1, cell 0 free) and
never returns address `"0"`. -/
theorem alloc_pres {env : CEnvironment} {n : Nat} {env' : CEnvironment}
    {r : Option String} (hff : 1 ≤ env._first_free)
    (hc0 : (env.heap.get? 0).map Cell.free = some true)
    (h : env.alloc n = .ok (env', r)) :
    (1 ≤ env'._first_free ∧ (env'.heap.get? 0).map Cell.free = some true) ∧
      ∀ a, r = some a → a ≠ "0" := by
  unfold CEnvironment.alloc at h
  split at h
  · exact absurd h (by simp)
  next cell hg =>
    split at h
    · injection h with h1
      injection h1 with he hr
      subst he
      subst hr
      exact ⟨⟨hff, hc0⟩, fun a ha => absurd ha (by simp)⟩
    · split at h
      · exact absurd h (by simp)
      next heap1 hset =>
        split at h
        next err herr => exact absurd h (by simp)
        next j hscan =>
          injection h with h1
          injection h1 with he hr
          subst he
          subst hr
          obtain ⟨hl', hlt⟩ := pySet_eq_some (by omega) hset
          subst hl'
          have hj : 1 ≤ j := by
            unfold scanFree at hscan
            exact scanFreeF_ge _ _ 1 j hscan
          have hj' : (1 : Int) ≤ (j : Int) := by exact_mod_cast hj
          have hc0' : ((env.heap.set env._first_free.toNat
              { value := some (List.replicate n TypedValue.pyNone),
                free := false }).get? 0).map Cell.free = some true := by
            rw [List.get?_set_ne _ _ (show env._first_free.toNat ≠ 0 by omega)]
            exact hc0
          refine ⟨⟨hj', hc0'⟩, ?_⟩
          intro a ha
          injection ha with ha'
          subst ha'
          exact hexPy_slice_ne_zero hff

/-- `free` on a valid occupied address preserves the heap invariant. -/
theorem free_pres {env env' : CEnvironment} {addr : String}
    (hc0 : (env.heap.get? 0).map Cell.free = some true)
    (hocc : addrOccupied env addr = true)
    (h : env.free addr = .ok env') :
    1 ≤ env'._first_free ∧ (env'.heap.get? 0).map Cell.free = some true := by
  have h1a : ∃ a, pyIntBase16 addr = some a ∧ 1 ≤ a := by
    unfold addrOccupied at hocc
    cases hp : pyIntBase16 addr with
    | none => rw [hp] at hocc; exact absurd hocc (by simp)
    | some a =>
      rw [hp] at hocc
      rw [Bool.and_eq_true, Bool.and_eq_true] at hocc
      exact ⟨a, rfl, of_decide_eq_true hocc.1.1⟩
  obtain ⟨a, hp, ha⟩ := h1a
  unfold CEnvironment.free at h
  rw [hp] at h
  split at h
  · exact absurd h (by simp)
  next c hq =>
    injection hq with hq'
    subst hq'
    split at h
    · exact absurd h (by simp)
    next cell hget =>
      split at h
      · exact absurd h (by simp)
      next heap1 hset =>
        injection h with he
        obtain ⟨hl', hlt⟩ := pySet_eq_some (by omega) hset
        subst hl'
        have hc0' : ((env.heap.set a.toNat
            { value := Option.none, free := true }).get? 0).map Cell.free
            = some true := by
          rw [List.get?_set_ne _ _ (show a.toNat ≠ 0 by omega)]
          exact hc0
        rw [← he]
        exact ⟨ha, hc0'⟩

/-- Invariant propagation along any trace with valid frees. -/
theorem runOps_inv : ∀ (ops : List HeapOp) (env : CEnvironment),
    1 ≤ env._first_free →
    (env.heap.get? 0).map Cell.free = some true →
    freesValid env ops = true →
    ∀ e addrs, runOps env ops = .ok (e, addrs) →
      some "0" ∉ addrs ∧ 1 ≤ e._first_free ∧
        (e.heap.get? 0).map Cell.free = some true := by
  intro ops
  induction ops with
  | nil =>
    intro env hff hc0 _ e addrs hr
    simp only [runOps] at hr
    injection hr with hr1
    injection hr1 with he haddrs
    subst he
    subst haddrs
    exact ⟨by simp, hff, hc0⟩
  | cons op rest ih =>
    intro env hff hc0 hv e addrs hr
    cases op with
    | alloc n =>
      rw [freesValid_alloc] at hv
      rw [runOps_alloc] at hr
      cases ha : env.alloc n with
      | error err =>
        rw [ha] at hr
        simp at hr
      | ok p =>
        obtain ⟨e', aop⟩ := p
        rw [ha] at hv hr
        simp only [] at hv hr
        cases hrr : runOps e' rest with
        | error err =>
          rw [hrr] at hr
          simp at hr
        | ok q =>
          obtain ⟨ef, as⟩ := q
          rw [hrr] at hr
          simp only [] at hr
          injection hr with hr1
          injection hr1 with he haddrs
          subst he
          subst haddrs
          obtain ⟨⟨hff', hc0'⟩, hne⟩ := alloc_pres hff hc0 ha
          obtain ⟨hmem, hfin⟩ := ih e' hff' hc0' hv ef as hrr
          refine ⟨?_, hfin⟩
          intro hin
          rcases List.mem_cons.1 hin with hin1 | hin2
          · exact hne "0" hin1.symm rfl
          · exact hmem hin2
    | free addr =>
      rw [freesValid_free] at hv
      rw [runOps_free] at hr
      rw [Bool.and_eq_true] at hv
      obtain ⟨hocc, hv2⟩ := hv
      cases hf : env.free addr with
      | error err =>
        rw [hf] at hr
        simp at hr
      | ok e2 =>
        rw [hf] at hr hv2
        simp only [] at hr hv2
        obtain ⟨hff2, hc02⟩ := free_pres hc0 hocc hf
        exact ih e2 hff2 hc02 hv2 e addrs hr

/-- C9: starting from a fresh heap, along every operation sequence whose
`free`s hit only currently occupied in-range addresses, `alloc` never
returns the address `"0"` and cell 0 stays in the `Free` state (this holds
for every such sequence, hence at every intermediate state of a longer
run). -/
theorem heap_cell_zero_reserved (ops : List HeapOp) (e : CEnvironment)
    (addrs : List (Option String))
    (hv : freesValid CEnvironment.fresh ops = true)
    (hr : runOps CEnvironment.fresh ops = .ok (e, addrs)) :
    some "0" ∉ addrs ∧ (e.heap.get? 0).map Cell.free = some true := by
  have h := runOps_inv ops CEnvironment.fresh (by decide) rfl hv e addrs hr
  exact ⟨h.1, h.2.2⟩

/-- C9 witness: the sequence alloc, alloc, free, alloc on a fresh heap. -/
theorem heap_cell_zero_reserved_witness :
    freesValid CEnvironment.fresh c9ops = true ∧
    (some "0" ∉ c9pair.2 ∧ (c9pair.1.heap.get? 0).map Cell.free = some true) :=
  ⟨rfl, heap_cell_zero_reserved c9ops c9pair.1 c9pair.2 rfl rfl⟩
